import Mathlib

/-!
Verification development for the ObJournal Obsidian plugin.

This file shallowly embeds the plugin's data model and the operations under
scrutiny — date extraction, image extraction (`src/utils.ts`) and the journal
view's scan / pagination logic (`src/JournalView.ts`) — and proves or refutes
the specification claims about them.

Modelling conventions:
* The Obsidian host (vault, metadata cache, link resolution, `Date` string
  parsing) is a structure of oracles; theorems quantify over all hosts.
* A JavaScript `Date` is its time value in milliseconds (`getTime`); the
  `new Date(y, m, d)` constructor is modelled with ECMAScript `MakeDay`
  semantics (proleptic Gregorian, local time taken as UTC).
* JS regex loops are modelled as character-list scanners that reproduce the
  exact backtracking behaviour of the concrete patterns in the source.
* String positions are code points rather than UTF-16 code units; for the
  ASCII-heavy syntax matched here this only renames positions.
-/

namespace ObJournal

/-- A JavaScript `Date` value, identified with its time value in milliseconds
since the Unix epoch (`Date.prototype.getTime`). -/
structure JDate where
  ms : Int
deriving DecidableEq, Repr

/-- Days since 1970-01-01 of the *first* day of month `m0` (0-based) of year
`y`, proleptic Gregorian — the civil-from-days arithmetic underlying
ECMAScript `MakeDay`. -/
def daysFromCivil0 (y m0 : Int) : Int :=
  let yAdj := if m0 ≤ 1 then y - 1 else y
  let era := yAdj.ediv 400
  let yoe := yAdj - era * 400
  let mp := if 2 ≤ m0 then m0 - 2 else m0 + 10
  let doy := (153 * mp + 2).ediv 5
  let doe := yoe * 365 + yoe.ediv 4 - yoe.ediv 100 + doy
  era * 146097 + doe - 719468

def msPerDay : Int := 86400000

/-- `new Date(y, m, d)` at local midnight (ECMAScript): years 0–99 are mapped
to 1900 + y, out-of-range month/day roll over via `MakeDay`. -/
def jsMakeDateYMD (y m d : Int) : JDate :=
  let yr := if 0 ≤ y ∧ y ≤ 99 then 1900 + y else y
  let ym := yr + m.ediv 12
  let mn := m.emod 12
  ⟨msPerDay * (daysFromCivil0 ym mn + (d - 1))⟩

/-- The canonical JS encoding (local midnight) of the calendar date `y-m-d`
(`m` 1-based). For a calendar-valid triple this is *the* date with exactly
those year/month/day components. -/
def civilDate (y m d : Int) : JDate :=
  ⟨msPerDay * (daysFromCivil0 y (m - 1) + (d - 1))⟩

/-- Length of month `m` (1-based) of year `y`, proleptic Gregorian. -/
def daysInMonth (y m : Int) : Int :=
  if m = 2 then
    if y.emod 4 = 0 ∧ (y.emod 100 ≠ 0 ∨ y.emod 400 = 0) then 29 else 28
  else if m = 4 ∨ m = 6 ∨ m = 9 ∨ m = 11 then 30
  else 31

/-- The triple `(y, m, d)` denotes an actual calendar date. -/
def ValidYMD (y m d : Int) : Prop :=
  1 ≤ m ∧ m ≤ 12 ∧ 1 ≤ d ∧ d ≤ daysInMonth y m

instance (y m d : Int) : Decidable (ValidYMD y m d) := by
  unfold ValidYMD; infer_instance

/-! ### Date regexes of `src/utils.ts`

The three filename patterns `(\d{4})-(\d{1,2})-(\d{1,2})`,
`(\d{4})年(\d{1,2})月(\d{1,2})日`, `(\d{4})\.(\d{1,2})\.(\d{1,2})` and the
body patterns share one shape: four digits, a separator, one or two digits, a
separator, one or two digits, optionally a trailing character. We model
`String.prototype.match` (first match, scanning start positions left to
right) with the backtracking of the concrete patterns: a `\d{1,2}` group
followed by a required character is greedy but falls back to one digit. -/

/-- `parseInt` on a list of decimal digits. -/
def digitsToInt (l : List Char) : Int :=
  l.foldl (fun acc c => acc * 10 + ((c.toNat : Int) - ('0'.toNat : Int))) 0

/-- Match `\d{1,2}` at the head of `l` where the pattern continues with the
required character `follow`; returns the group value and the rest after
`follow`. -/
def digits12Then (follow : Char) : List Char → Option (Int × List Char)
  | a :: b :: c :: r =>
    if a.isDigit then
      if b.isDigit then
        if c = follow then some (digitsToInt [a, b], r)
        else if b = follow then some (digitsToInt [a], c :: r)
        else none
      else if b = follow then some (digitsToInt [a], c :: r)
      else none
    else none
  | [a, b] =>
    if a.isDigit ∧ b = follow then some (digitsToInt [a], [])
    else none
  | _ => none

/-- Match a final `\d{1,2}` (nothing after it in the pattern): greedy. -/
def digits12End : List Char → Option Int
  | a :: b :: _ =>
    if a.isDigit then
      some (if b.isDigit then digitsToInt [a, b] else digitsToInt [a])
    else none
  | [a] => if a.isDigit then some (digitsToInt [a]) else none
  | [] => none

/-- One anchored attempt of the date pattern at the head of `l`. -/
def tryYMDAt (sep1 sep2 : Char) (trail : Option Char) (l : List Char) :
    Option (Int × Int × Int) :=
  let y4 := l.take 4
  if y4.length = 4 ∧ y4.all (·.isDigit) then
    match l.drop 4 with
    | c1 :: r1 =>
      if c1 = sep1 then
        match digits12Then sep2 r1 with
        | some (m, r2) =>
          match trail with
          | none => (digits12End r2).map (fun d => (digitsToInt y4, m, d))
          | some t => (digits12Then t r2).map (fun p => (digitsToInt y4, m, p.1))
        | none => none
      else none
    | [] => none
  else none

/-- First match of the date pattern, scanning left to right. -/
def scanYMD (sep1 sep2 : Char) (trail : Option Char) : List Char → Option (Int × Int × Int)
  | [] => none
  | c :: rest =>
    match tryYMDAt sep1 sep2 trail (c :: rest) with
    | some r => some r
    | none => scanYMD sep1 sep2 trail rest

/-- `parseDateFromFileName` (src/utils.ts:105-137): ISO, then Chinese, then
dot-separated; each builds `new Date(y, m-1, d)`. -/
def parseDateFromFileName (fileName : String) : Option JDate :=
  match scanYMD '-' '-' none fileName.toList with
  | some (y, m, d) => some (jsMakeDateYMD y (m - 1) d)
  | none =>
    match scanYMD '年' '月' (some '日') fileName.toList with
    | some (y, m, d) => some (jsMakeDateYMD y (m - 1) d)
    | none =>
      match scanYMD '.' '.' none fileName.toList with
      | some (y, m, d) => some (jsMakeDateYMD y (m - 1) d)
      | none => none

/-- The digit triple that `parseDateFromFileName`'s pattern priority selects
(ISO, Chinese, dot — in source order). -/
def fileNamePatternMatch (fileName : String) : Option (Int × Int × Int) :=
  match scanYMD '-' '-' none fileName.toList with
  | some r => some r
  | none =>
    match scanYMD '年' '月' (some '日') fileName.toList with
    | some r => some r
    | none => scanYMD '.' '.' none fileName.toList

/-- `parseDateFromContent` (src/utils.ts:142-162): Chinese, ISO, then
slash-separated. -/
def parseDateFromContent (content : String) : Option JDate :=
  match scanYMD '年' '月' (some '日') content.toList with
  | some (y, m, d) => some (jsMakeDateYMD y (m - 1) d)
  | none =>
    match scanYMD '-' '-' none content.toList with
    | some (y, m, d) => some (jsMakeDateYMD y (m - 1) d)
    | none =>
      match scanYMD '/' '/' none content.toList with
      | some (y, m, d) => some (jsMakeDateYMD y (m - 1) d)
      | none => none

/-! ### The Obsidian host and the data model -/

/-- An Obsidian `TFile` as the plugin reads it. -/
structure VFile where
  basename : String
  path : String
  parentPath : Option String
  extension : String
  ctime : Int
deriving DecidableEq, Repr

/-- A frontmatter value, in the shapes the plugin inspects. -/
inductive FMValue where
  | vStr (s : String)
  | vNum (n : Int)
  | vDate (d : JDate)
deriving DecidableEq, Repr

/-- JS truthiness of a frontmatter value. -/
def fmTruthy : FMValue → Bool
  | .vStr s => s ≠ ""
  | .vNum n => n ≠ 0
  | .vDate _ => true

/-- Canonical stringification used where the TS code assigns a frontmatter
value to a `string`-typed field; non-string values would be host-stringified
only at display time, so we fix a canonical rendering. -/
def fmToString : FMValue → String
  | .vStr s => s
  | .vNum n => toString n
  | .vDate d => toString d.ms

/-- Coercion used where the TS code assigns a frontmatter value to the
`number`-typed `wordCount` field; non-numeric values are modelled as 0. -/
def fmToInt : FMValue → Int
  | .vNum n => n
  | _ => 0

/-- An entry of `metadata.embeds`. -/
structure Embed where
  link : String
  displayText : Option String
  posLine : Nat
deriving DecidableEq, Repr

/-- An Obsidian `CachedMetadata` as the plugin reads it: `frontmatter` is a
field lookup, `cachedContent` models the `(cache as any).content` access,
`embeds` is absent (`none`) or present, `headings` holds the heading texts. -/
structure FileCache where
  frontmatter : Option (String → Option FMValue)
  cachedContent : Option String
  embeds : Option (List Embed)
  headings : List String

/-- The Obsidian host APIs the plugin calls, as oracles. A `none` result
covers both `null` and a value failing the `instanceof TFile` check. -/
structure Host where
  getFirstLinkpathDest : String → String → Option VFile
  getAbstractFileByPath : String → Option VFile
  getResourcePath : VFile → String
  getFileCache : VFile → Option FileCache
  parseDateString : String → Option JDate
  read : VFile → Option String
  getMarkdownFiles : List VFile
  folderFiles : String → Option (List VFile)

/-- `parseDate` (src/utils.ts:167-182): falsy → null; `Date` instance →
itself; string → `new Date(s)` when not `NaN`; otherwise null. -/
def parseDate (host : Host) (v : FMValue) : Option JDate :=
  if fmTruthy v then
    match v with
    | .vDate d => some d
    | .vStr s => host.parseDateString s
    | .vNum _ => none
  else none

/-- The frontmatter field loop of `extractDate` (src/utils.ts:196-202): try
the fields in order; a field participates only if present and truthy, and is
skipped when `parseDate` fails. -/
def tryDateFields (host : Host) (fm : String → Option FMValue) :
    List String → Option JDate
  | [] => none
  | f :: rest =>
    match fm f with
    | some v =>
      if fmTruthy v then
        match parseDate host v with
        | some d => some d
        | none => tryDateFields host fm rest
      else tryDateFields host fm rest
    | none => tryDateFields host fm rest

def dateFields : List String := ["date", "Date", "created", "created_time"]

/-- Strategy 2 of `extractDate`: the frontmatter date, when the cache and a
frontmatter block exist. -/
def frontmatterDate (host : Host) (file : VFile) : Option JDate :=
  match host.getFileCache file with
  | some cache =>
    match cache.frontmatter with
    | some fm => tryDateFields host fm dateFields
    | none => none
  | none => none

/-- `extractDate` (src/utils.ts:187-211): filename pattern, frontmatter
fields, body patterns, then `new Date(file.stat.ctime)`. -/
def extractDate (file : VFile) (content : String) (host : Host) : Option JDate :=
  match parseDateFromFileName file.basename with
  | some d => some d
  | none =>
    match frontmatterDate host file with
    | some d => some d
    | none =>
      match parseDateFromContent content with
      | some d => some d
      | none => some ⟨file.ctime⟩

/-! ### Image extraction (src/utils.ts:24-100) -/

/-- `ImageInfo` (src/utils.ts:3-9). -/
structure ImageInfo where
  name : String
  path : String
  url : String
  altText : Option String
  position : Nat
deriving DecidableEq, Repr

/-- All matches of `/!\[\[([^\]]+)\]\]/g` as `(match.index, capture)` pairs.
The character class excludes `]`, so the greedy run never backtracks; a
failed attempt retries at the next position, a successful one continues at
the match end (`lastIndex`). The recursion is bounded by an explicit step
count: every iteration consumes at least one character, so `l.length` steps
always suffice (`wikiScan` instantiates the bound accordingly, making the
`0`-fuel case unreachable). -/
def wikiScanF : Nat → List Char → Nat → List (Nat × List Char)
  | 0, _, _ => []
  | fuel + 1, l, i =>
    match l with
    | '!' :: '[' :: '[' :: tail =>
      let run := tail.takeWhile (fun c => c ≠ ']')
      if 0 < run.length ∧ (tail.drop run.length).take 2 = [']', ']'] then
        (i, run) :: wikiScanF fuel (tail.drop (run.length + 2)) (i + run.length + 5)
      else wikiScanF fuel ('[' :: '[' :: tail) (i + 1)
    | _ :: rest => wikiScanF fuel rest (i + 1)
    | [] => []

def wikiScan (l : List Char) (i : Nat) : List (Nat × List Char) :=
  wikiScanF l.length l i

/-- All matches of `/!\[([^\]]*)\]\(([^)]+)\)/g` as `(index, alt, path)`,
with the same step-count bound. -/
def mdScanF : Nat → List Char → Nat → List (Nat × List Char × List Char)
  | 0, _, _ => []
  | fuel + 1, l, i =>
    match l with
    | '!' :: '[' :: tail =>
      let alt := tail.takeWhile (fun c => c ≠ ']')
      if (tail.drop alt.length).take 2 = [']', '('] then
        let r2 := tail.drop (alt.length + 2)
        let pth := r2.takeWhile (fun c => c ≠ ')')
        if 0 < pth.length ∧ (r2.drop pth.length).take 1 = [')'] then
          (i, alt, pth) :: mdScanF fuel (r2.drop (pth.length + 1)) (i + alt.length + pth.length + 5)
        else mdScanF fuel ('[' :: tail) (i + 1)
      else mdScanF fuel ('[' :: tail) (i + 1)
    | _ :: rest => mdScanF fuel rest (i + 1)
    | [] => []

def mdScan (l : List Char) (i : Nat) : List (Nat × List Char × List Char) :=
  mdScanF l.length l i

/-- String of a char list. -/
def strOf (l : List Char) : String := ⟨l⟩

/-- JS `\s` (modelled on its ASCII part: space, tab, LF, VT, FF, CR). -/
def jsWs (c : Char) : Bool :=
  c == ' ' || c == '\t' || c == '\n' || c == '\r' || c == Char.ofNat 11 || c == Char.ofNat 12

/-- JS `trim` (on the modelled whitespace set). -/
def jsTrimList (l : List Char) : List Char :=
  ((l.dropWhile jsWs).reverse.dropWhile jsWs).reverse

def jsTrimStr (s : String) : String := strOf (jsTrimList s.toList)

/-- JS `startsWith`. -/
def jsStartsWith (s pre : String) : Bool := pre.toList.isPrefixOf s.toList

/-- JS `split('/')` at the character level. -/
def splitSlash : List Char → List (List Char)
  | [] => [[]]
  | c :: rest =>
    if c = '/' then [] :: splitSlash rest
    else
      match splitSlash rest with
      | p :: ps => (c :: p) :: ps
      | [] => [[c]]

/-- JS `join('/')`. -/
def joinSlash : List (List Char) → List Char
  | [] => []
  | [p] => p
  | p :: ps => p ++ '/' :: joinSlash ps

/-- JS `toLowerCase` (character-wise). -/
def jsToLower (s : String) : String := strOf (s.toList.map Char.toLower)

/-- The wiki-link pass (src/utils.ts:32-56): split off a `|size` suffix,
trim, resolve via the host's link-resolution API. -/
def wikiImages (content : String) (file : VFile) (host : Host) : List ImageInfo :=
  (wikiScan content.toList 0).filterMap fun pr =>
    let imageName := jsTrimStr (strOf (pr.2.takeWhile (fun c => c ≠ '|')))
    match host.getFirstLinkpathDest imageName file.path with
    | some vf =>
      some { name := imageName, path := vf.path, url := host.getResourcePath vf,
             altText := none, position := pr.1 }
    | none => none

/-- The path handling of the Markdown pass (src/utils.ts:70-85): a leading
slash is stripped (vault-absolute); otherwise the path is joined with the
note's parent directory and `.` segments are dropped. -/
def resolveMdPath (file : VFile) (imagePath : String) : String :=
  if jsStartsWith imagePath "/" then strOf (imagePath.toList.drop 1)
  else
    let fileDir := file.parentPath.getD ""
    let fullPath := if fileDir ≠ "" then fileDir ++ "/" ++ imagePath else imagePath
    strOf (joinSlash ((splitSlash fullPath.toList).filter (fun p => p ≠ ['.'])))

/-- The Markdown-link pass (src/utils.ts:59-96): external links skipped,
paths resolved locally and looked up via `vault.getAbstractFileByPath`. -/
def mdImages (content : String) (file : VFile) (host : Host) : List ImageInfo :=
  (mdScan content.toList 0).filterMap fun tr =>
    let altText := strOf tr.2.1
    let imagePath := strOf tr.2.2
    if jsStartsWith imagePath "http://" || jsStartsWith imagePath "https://" then none
    else
      match host.getAbstractFileByPath (resolveMdPath file imagePath) with
      | some vf =>
        some { name := vf.basename, path := vf.path, url := host.getResourcePath vf,
               altText := if altText = "" then none else some altText,
               position := tr.1 }
      | none => none

/-- The ordering `(a, b) => a.position - b.position`. -/
def posLe (a b : ImageInfo) : Prop := a.position ≤ b.position

instance : DecidableRel posLe := fun a b => inferInstanceAs (Decidable (_ ≤ _))

instance : IsTotal ImageInfo posLe := ⟨fun a b => Nat.le_total a.position b.position⟩

instance : IsTrans ImageInfo posLe := ⟨fun _ _ _ hab hbc => Nat.le_trans hab hbc⟩

/-- `images.sort((a, b) => a.position - b.position)`: JS `sort` is a stable
sort, modelled as stable insertion sort. -/
def sortByPosition (l : List ImageInfo) : List ImageInfo :=
  l.insertionSort posLe

/-- `extractImagesFromContent` (src/utils.ts:24-100): wiki-link pass, then
Markdown pass, then the position sort. -/
def extractImagesFromContent (content : String) (file : VFile) (host : Host) :
    List ImageInfo :=
  sortByPosition (wikiImages content file host ++ mdImages content file host)

/-- Follows the spec claim's words (not the source), for comparison: both
regex passes resolve every matched reference via the host's link-resolution
API (`metadataCache.getFirstLinkpathDest`), so that path resolution is
entirely delegated to the host. -/
def extractImagesLinkResolved (content : String) (file : VFile) (host : Host) :
    List ImageInfo :=
  let wiki := (wikiScan content.toList 0).filterMap fun pr =>
    let imageName := jsTrimStr (strOf (pr.2.takeWhile (fun c => c ≠ '|')))
    match host.getFirstLinkpathDest imageName file.path with
    | some vf =>
      some { name := imageName, path := vf.path, url := host.getResourcePath vf,
             altText := none, position := pr.1 }
    | none => none
  let md := (mdScan content.toList 0).filterMap fun tr =>
    let altText := strOf tr.2.1
    let imagePath := strOf tr.2.2
    match host.getFirstLinkpathDest imagePath file.path with
    | some vf =>
      some { name := vf.basename, path := vf.path, url := host.getResourcePath vf,
             altText := if altText = "" then none else some altText,
             position := tr.1 }
    | none => none
  sortByPosition (wiki ++ md)

/-! ### Text utilities (src/utils.ts:216-275) -/

/-- Drop everything through the first occurrence of `---` + newline. -/
def dropThroughDashes : List Char → Option (List Char)
  | [] => none
  | c :: rest =>
    if (c :: rest).take 4 = ['-', '-', '-', '\n'] then some ((c :: rest).drop 4)
    else dropThroughDashes rest

/-- The frontmatter removal `replace(/^---[\s\S]*?---\n/, '')`: anchored at
the start and lazy, so when the text begins with `---` everything through
the first following `---` + newline is removed. -/
def stripFrontmatter (l : List Char) : List Char :=
  if l.take 3 = ['-', '-', '-'] then
    match dropThroughDashes (l.drop 3) with
    | some r => r
    | none => l
  else l

/-- One anchored attempt of the wiki-image alternative, given the text after
`![[`; returns the rest after the match. -/
def wikiTryAt (tail2 : List Char) : Option (List Char) :=
  let run := tail2.takeWhile (fun c => c ≠ ']')
  if 0 < run.length ∧ (tail2.drop run.length).take 2 = [']', ']'] then
    some (tail2.drop (run.length + 2))
  else none

/-- One anchored attempt of the Markdown-image alternative, given the text
after `![`; returns the rest after the match. -/
def mdTryAt (tail : List Char) : Option (List Char) :=
  let alt := tail.takeWhile (fun c => c ≠ ']')
  if (tail.drop alt.length).take 2 = [']', '('] then
    let r2 := tail.drop (alt.length + 2)
    let pth := r2.takeWhile (fun c => c ≠ ')')
    if 0 < pth.length ∧ (r2.drop pth.length).take 1 = [')'] then
      some (r2.drop (pth.length + 1))
    else none
  else none

/-- `replace(/!\[\[[^\]]+\]\]|!\[[^\]]*\]\([^)]+\)/g, '')` of
`generatePreview`: at each position the wiki alternative is tried first,
then the Markdown one (whose alt group then starts at the second `[`);
matched spans are removed. -/
def stripImageTags : List Char → List Char
  | '!' :: '[' :: '[' :: tail2 =>
    match h : wikiTryAt tail2 with
    | some rest => stripImageTags rest
    | none =>
      match h2 : mdTryAt ('[' :: tail2) with
      | some rest => stripImageTags rest
      | none => '!' :: stripImageTags ('[' :: '[' :: tail2)
  | '!' :: '[' :: tail =>
    match h3 : mdTryAt tail with
    | some rest => stripImageTags rest
    | none => '!' :: stripImageTags ('[' :: tail)
  | c :: rest => c :: stripImageTags rest
  | [] => []
termination_by l => l.length
decreasing_by
  all_goals simp_all [wikiTryAt, mdTryAt]
  all_goals
    first
    | omega
    | (obtain ⟨-, rfl⟩ := h; simp [List.length_drop]; omega)
    | (obtain ⟨-, -, rfl⟩ := h2; simp [List.length_drop]; omega)
    | (obtain ⟨-, -, rfl⟩ := h3; simp [List.length_drop]; omega)

/-- One anchored attempt of `^#+\s+` at a line start: returns whether the
next position is again a line start (the removed whitespace ended with a
newline) and the text after the removed span. -/
def headerTryAt (l : List Char) : Option (Bool × List Char) :=
  let hashes := l.takeWhile (fun x => x == '#')
  let afterH := l.drop hashes.length
  let ws := afterH.takeWhile jsWs
  if 0 < hashes.length ∧ 0 < ws.length then
    some (ws.getLast? == some '\n', afterH.drop ws.length)
  else none

theorem headerTryAt_length {l : List Char} {pr : Bool × List Char}
    (h : headerTryAt l = some pr) : pr.2.length < l.length := by
  unfold headerTryAt at h
  dsimp only at h
  split_ifs at h with hc
  obtain ⟨h1, h2⟩ := hc
  cases h
  have := (List.takeWhile_sublist (l := l) (fun x => x == '#')).length_le
  simp only [List.length_drop]
  omega

/-- `replace(/^#+\s+/gm, '')`: at each line start of the original string a
run of `#` followed by a whitespace run (`\s` may span newlines) is removed;
`atStart` tracks whether the current position is a line start. -/
def stripHeaders (atStart : Bool) : List Char → List Char
  | [] => []
  | c :: rest =>
    if atStart then
      match h : headerTryAt (c :: rest) with
      | some pr => stripHeaders pr.1 pr.2
      | none => c :: stripHeaders (c == '\n') rest
    else c :: stripHeaders (c == '\n') rest
termination_by l => l.length
decreasing_by
  all_goals first
    | (exact headerTryAt_length h)
    | (simp only [List.length_cons]; omega)

/-- The characters removed by `generatePreview`'s cleanup `[#*_\x60~\[\]()]`
(the backtick written by code point). -/
def previewStripChars : List Char :=
  ['#', '*', '_', Char.ofNat 96, '~', '[', ']', '(', ')']

/-- `generatePreview` (src/utils.ts:242-260). -/
def generatePreview (content : String) (maxLength : Nat) : String :=
  let t1 := stripFrontmatter content.toList
  let t2 := stripImageTags t1
  let t3 := stripHeaders true t2
  let text := jsTrimList (t3.filter (fun c => decide (c ∉ previewStripChars)))
  if text.length ≤ maxLength then strOf text
  else strOf (text.take maxLength) ++ "..."

/-- Maximal runs of non-whitespace characters: the nonempty pieces of
`split(/\s+/)` (its possible empty first/last pieces never contain a
letter, so they are irrelevant to `countWords`). -/
def wordsOf : List Char → List (List Char)
  | [] => []
  | c :: rest =>
    if h : jsWs c then wordsOf rest
    else
      let w := (c :: rest).takeWhile (fun x => !jsWs x)
      w :: wordsOf ((c :: rest).drop w.length)
termination_by l => l.length
decreasing_by
  all_goals simp_all [List.length_drop, List.takeWhile_cons]
  omega

/-- The characters removed by `countWords`'s cleanup `[#*_\x60~\[\]()!]`. -/
def countWordsStripChars : List Char :=
  ['#', '*', '_', Char.ofNat 96, '~', '[', ']', '(', ')', '!']

/-- `countWords` (src/utils.ts:265-275): CJK characters count one each,
plus the whitespace-separated runs containing a Latin letter. -/
def countWords (content : String) : Nat :=
  let t1 := stripFrontmatter content.toList
  let text := t1.filter (fun c => decide (c ∉ countWordsStripChars))
  let chineseChars := (text.filter (fun c => decide (0x4e00 ≤ c.toNat ∧ c.toNat ≤ 0x9fa5))).length
  let englishWords := ((wordsOf text).filter (fun w => w.any (fun c => c.isAlpha))).length
  chineseChars + englishWords

/-- In the end-of-string case the greedy `\s+` of `^#+\s+(.+)$` backtracks
one character at a time; the first success captures `[ws k]` for the
largest `k ≥ 1` with `ws k` not a newline (everything after it in `ws` is a
newline, so `.+` matches that one character). -/
def backtrackTail (ws : List Char) : Option (List Char) :=
  let core := (ws.reverse.dropWhile (fun c => c == '\n')).reverse
  if 2 ≤ core.length then some [(core.getLast?).getD ' '] else none

/-- The capture of `^#{n}\s+(.+)$` (flag `m`) attempted at a line start:
after exactly `reqHashes` hashes a whitespace run `W` (spanning newlines via
`\s`) of length ≥ 1 is required; if a character follows `W` the capture is
the rest of that line, and at end-of-string the backtracking case applies. -/
def headingCaptureAt (reqHashes : Nat) (l : List Char) : Option (List Char) :=
  if l.take reqHashes = List.replicate reqHashes '#' then
    let afterH := l.drop reqHashes
    let ws := afterH.takeWhile jsWs
    let rest := afterH.drop ws.length
    if ws.length = 0 then none
    else if rest ≠ [] then some (rest.takeWhile (fun c => c ≠ '\n'))
    else backtrackTail ws
  else none

/-- First match of `^#{n}\s+(.+)$` (flag `m`), scanning line starts left to
right. -/
def findHeading (reqHashes : Nat) (atStart : Bool) : List Char → Option (List Char)
  | [] => none
  | c :: rest =>
    if atStart then
      match headingCaptureAt reqHashes (c :: rest) with
      | some cap => some cap
      | none => findHeading reqHashes (c == '\n') rest
    else findHeading reqHashes (c == '\n') rest

/-- `metadata?.frontmatter?.title` when present and truthy. -/
def fmTitle (host : Host) (file : VFile) : Option String :=
  match host.getFileCache file with
  | some cache =>
    match cache.frontmatter with
    | some fm =>
      match fm "title" with
      | some v => if fmTruthy v then some (fmToString v) else none
      | none => none
    | none => none
  | none => none

/-- `extractTitle` (src/utils.ts:216-237): frontmatter `title`, first H1,
first H2, else the file name. -/
def extractTitle (content : String) (fileName : String) (host : Host) (file : VFile) :
    String :=
  match fmTitle host file with
  | some t => t
  | none =>
    match findHeading 1 true content.toList with
    | some cap => jsTrimStr (strOf cap)
    | none =>
      match findHeading 2 true content.toList with
      | some cap => jsTrimStr (strOf cap)
      | none => fileName

/-! ### The journal view (src/JournalView.ts) -/

/-- `JournalEntry` (src/utils.ts:11-19) as built by the view; `content` is
always stored as the empty string. -/
structure JournalEntry where
  file : VFile
  date : JDate
  images : List ImageInfo
  content : String
  preview : String
  wordCount : Int
  title : String
deriving DecidableEq, Repr

def imageExtensions : List String :=
  ["png", "jpg", "jpeg", "gif", "webp", "svg", "bmp"]

/-- `extractImagesFromMetadata` (src/JournalView.ts:539-566): resolve each
embed via the link-resolution API, keep those with image extensions. -/
def extractImagesFromMetadata (host : Host) (cache : FileCache) (file : VFile) :
    List ImageInfo :=
  match cache.embeds with
  | none => []
  | some es => es.filterMap fun e =>
    match host.getFirstLinkpathDest e.link file.path with
    | some vf =>
      if jsToLower vf.extension ∈ imageExtensions then
        some { name := e.link, path := vf.path, url := host.getResourcePath vf,
               altText := some (e.displayText.getD ""), position := e.posLine }
      else none
    | none => none

/-- `loadEntryMetadataFromCache` (src/JournalView.ts:502-537): the fast path
when the frontmatter already has a parsed date — no file content is read. -/
def loadEntryMetadataFromCache (host : Host) (file : VFile) (cache : FileCache)
    (date : JDate) : JournalEntry :=
  let images := extractImagesFromMetadata host cache file
  let title :=
    match cache.frontmatter with
    | some fm =>
      match fm "title" with
      | some v => if fmTruthy v then fmToString v else file.basename
      | none => file.basename
    | none => file.basename
  let preview0 : Option String :=
    match cache.frontmatter with
    | some fm =>
      match fm "description" with
      | some v => if fmTruthy v then some (fmToString v) else none
      | none => none
    | none => none
  let preview1 :=
    match preview0 with
    | some p => p
    | none =>
      match cache.headings with
      | h :: _ => h
      | [] => title
  let wordCount : Int :=
    match cache.frontmatter with
    | some fm =>
      match fm "wordCount" with
      | some v => if fmTruthy v then fmToInt v else 0
      | none => 0
    | none => 0
  { file := file, date := date, images := images, content := "",
    preview := if preview1 = "" then "无预览" else preview1,
    wordCount := wordCount, title := title }

/-- The `substring(0, 2000)` truncation of the first read. -/
def take2000 (s : String) : String := strOf (s.toList.take 2000)

/-- The tail of the slow path: word count, title (frontmatter first, then
`extractTitle`), preview; `content` is dropped. -/
def mkSlowEntry (host : Host) (file : VFile) (date : JDate)
    (images : List ImageInfo) (content : String) : JournalEntry :=
  { file := file, date := date, images := images, content := "",
    preview := generatePreview content 200,
    wordCount := (countWords content : Int),
    title :=
      match fmTitle host file with
      | some t => t
      | none => extractTitle content file.basename host file }

/-- The slow path of `loadEntryMetadata` (src/JournalView.ts:442-498): get
content (the cached `content` when truthy, else a truncated `vault.read`),
extract the date, take images from the metadata cache, and fall back to a
full read when none were found. A failing first read is caught inside the
method; a failing second read rejects the per-file promise and is caught by
the scan's per-file `catch` — either way the file yields `none`. -/
def loadEntrySlow (host : Host) (file : VFile) (metadata : Option FileCache) :
    Option JournalEntry :=
  let contentOpt : Option String :=
    match metadata with
    | some c =>
      match c.cachedContent with
      | some cc => if cc = "" then (host.read file).map take2000 else some cc
      | none => (host.read file).map take2000
    | none => (host.read file).map take2000
  match contentOpt with
  | none => none
  | some content =>
    match extractDate file content host with
    | none => none
    | some date =>
      let images0 :=
        match metadata with
        | some c => extractImagesFromMetadata host c file
        | none => []
      if images0.isEmpty then
        match host.read file with
        | none => none
        | some full =>
          some (mkSlowEntry host file date (extractImagesFromContent full file host) full)
      else some (mkSlowEntry host file date images0 content)

/-- `loadEntryMetadata` (src/JournalView.ts:426-498) with the scan's
per-file `catch` folded in: `none` means the file contributes no entry. -/
def loadEntryMetadata (host : Host) (file : VFile) : Option JournalEntry :=
  match host.getFileCache file with
  | some cache =>
    match cache.frontmatter with
    | some fm =>
      match fm "date" with
      | some v =>
        if fmTruthy v then
          match parseDate host v with
          | some d => some (loadEntryMetadataFromCache host file cache d)
          | none => loadEntrySlow host file (some cache)
        else loadEntrySlow host file (some cache)
      | none => loadEntrySlow host file (some cache)
    | none => loadEntrySlow host file (some cache)
  | none => loadEntrySlow host file none

/-- `itemsPerPage` (src/JournalView.ts:27): the constant 20. -/
def itemsPerPage : Nat := 20

/-- The scan/pagination state of `JournalView`. -/
structure ViewState where
  entries : List JournalEntry
  isLoading : Bool
  renderedEntries : Finset Nat
  currentPage : Nat
  isLoadingMore : Bool
  targetFolderPath : Option String

/-- The file set scanned by `loadEntries` (src/JournalView.ts:366-380): the
target folder's markdown files when the folder exists, else the vault's. -/
def filesFor (host : Host) (tfp : Option String) : List VFile :=
  match tfp with
  | some p =>
    match host.folderFiles p with
    | some fs => fs
    | none => host.getMarkdownFiles
  | none => host.getMarkdownFiles

/-- The batched per-file processing of `loadEntries`
(src/JournalView.ts:387-404): batches of 10; each batch's non-null results
are appended in order. -/
def processBatches (host : Host) : List VFile → List JournalEntry
  | [] => []
  | f :: fs =>
    ((f :: fs).take 10).filterMap (loadEntryMetadata host)
      ++ processBatches host ((f :: fs).drop 10)
termination_by l => l.length
decreasing_by simp only [List.length_drop, List.length_cons]; omega

/-- The sort ordering `(a, b) => b.date.getTime() - a.date.getTime()`. -/
def newestFirst (a b : JournalEntry) : Prop := b.date.ms ≤ a.date.ms

instance : DecidableRel newestFirst := fun a b => inferInstanceAs (Decidable (_ ≤ _))

instance : IsTotal JournalEntry newestFirst := ⟨fun a b => Int.le_total b.date.ms a.date.ms⟩

instance : IsTrans JournalEntry newestFirst := ⟨fun _ _ _ hab hbc => Int.le_trans hbc hab⟩

/-- `loadEntries` (src/JournalView.ts:362-423): guarded by `isLoading`;
resets entries, rendered indices and page; scans; sorts newest-first; the
`finally` clears `isLoading`. Host API calls are total in the model and
per-file read failures are caught inside the scan, so the outer `catch` has
nothing left to catch. -/
def loadEntriesRun (host : Host) (s : ViewState) : ViewState :=
  if s.isLoading then s
  else
    let files := filesFor host s.targetFolderPath
    let scanned := processBatches host files
    { s with
      entries := scanned.insertionSort newestFirst,
      renderedEntries := ∅,
      currentPage := 0,
      isLoading := false }

/-- `renderEntriesBatch` (src/JournalView.ts:789-836) at the index level:
each entry of `[startIdx, endIdx)` whose index is not yet in
`renderedEntries` is rendered as a card and recorded (the month grouping
only affects card placement in the DOM, not which entries get rendered).
Returns the new state and the set of indices rendered. -/
def renderEntriesBatch (s : ViewState) (startIdx endIdx : Nat) :
    ViewState × Finset Nat :=
  let newIdx := (Finset.Ico startIdx endIdx).filter (fun i => i ∉ s.renderedEntries)
  ({ s with renderedEntries := s.renderedEntries ∪ newIdx }, newIdx)

/-- `loadMoreEntries` (src/JournalView.ts:732-787): guarded by
`isLoadingMore`; when the slice `[page*20, min(page*20+20, n))` is nonempty
it is rendered and the page incremented (the `finally` clears the guard);
when `page*20 ≥ n` nothing is rendered and the state is unchanged. Returns
the new state and the set of indices rendered by the call. -/
def loadMoreEntries (s : ViewState) : ViewState × Finset Nat :=
  if s.isLoadingMore then (s, ∅)
  else
    let startIdx := s.currentPage * itemsPerPage
    let endIdx := min (startIdx + itemsPerPage) s.entries.length
    if s.entries.length ≤ startIdx then (s, ∅)
    else
      let s1 := { s with isLoadingMore := true }
      let pr := renderEntriesBatch s1 startIdx endIdx
      ({ pr.1 with currentPage := pr.1.currentPage + 1, isLoadingMore := false }, pr.2)

/-- `k` successive load-more calls. -/
def iterLoadMore (k : Nat) (s : ViewState) : ViewState :=
  match k with
  | 0 => s
  | k + 1 => iterLoadMore k (loadMoreEntries s).1

/-! ### Helper lemmas and witness fixtures -/

/-- A host on which every lookup fails and the vault is empty. -/
def hostEmpty : Host where
  getFirstLinkpathDest := fun _ _ => none
  getAbstractFileByPath := fun _ => none
  getResourcePath := fun _ => ""
  getFileCache := fun _ => none
  parseDateString := fun _ => none
  read := fun _ => none
  getMarkdownFiles := []
  folderFiles := fun _ => none

def fileA : VFile :=
  { basename := "2026-01-12", path := "a/2026-01-12.md", parentPath := some "a",
    extension := "md", ctime := 5 }

def fileB : VFile :=
  { basename := "note", path := "a/note.md", parentPath := some "a",
    extension := "md", ctime := 5 }

def fmB : String → Option FMValue :=
  fun f => if f = "date" then some (.vDate ⟨77⟩) else none

def cacheB : FileCache :=
  { frontmatter := some fmB, cachedContent := none, embeds := none, headings := [] }

def hostB : Host := { hostEmpty with getFileCache := fun _ => some cacheB }

theorem processBatches_eq_filterMap (host : Host) : ∀ l : List VFile,
    processBatches host l = l.filterMap (loadEntryMetadata host)
  | [] => by simp [processBatches]
  | f :: fs => by
    rw [processBatches, processBatches_eq_filterMap host ((f :: fs).drop 10),
      ← List.filterMap_append, List.take_append_drop]
termination_by l => l.length
decreasing_by simp only [List.length_drop, List.length_cons]; omega

theorem loadEntrySlow_file {host : Host} {f : VFile} {md : Option FileCache}
    {e : JournalEntry} (h : loadEntrySlow host f md = some e) : e.file = f := by
  unfold loadEntrySlow at h
  dsimp only at h
  repeat' split at h
  all_goals first
    | (cases h; rfl)
    | cases h

theorem loadEntryMetadata_file {host : Host} {f : VFile} {e : JournalEntry}
    (h : loadEntryMetadata host f = some e) : e.file = f := by
  unfold loadEntryMetadata at h
  repeat' split at h
  all_goals first
    | (cases h; rfl)
    | (exact loadEntrySlow_file h)
    | cases h

/-! ### Claim C9 -/

/-- **C9**: `extractDate` always returns a date, never null — the final
fallback `new Date(file.stat.ctime)` always produces a value, so the
caller's null-date branch (src/JournalView.ts:457-460, modelled as the
`none` case of `extractDate` in `loadEntrySlow`) is unreachable. -/
theorem extractDate_isSome (file : VFile) (content : String) (host : Host) :
    (extractDate file content host).isSome = true := by
  unfold extractDate
  repeat' split
  all_goals simp

/-! ### Claim C1 -/

/-- **C1**: `extractDate` is a fixed priority list. A filename date wins
outright (the conclusion holds for every `content` and `host`, so no other
strategy is consulted); otherwise the frontmatter strategy — the fields
`date`, `Date`, `created`, `created_time` tried in that order
(`tryDateFields … dateFields`) — decides; otherwise the body patterns;
otherwise the file's creation time is used. -/
theorem extractDate_priority (file : VFile) (content : String) (host : Host) :
    (∀ d, parseDateFromFileName file.basename = some d →
        extractDate file content host = some d)
  ∧ (parseDateFromFileName file.basename = none →
      ∀ d, frontmatterDate host file = some d →
        extractDate file content host = some d)
  ∧ (parseDateFromFileName file.basename = none →
      frontmatterDate host file = none →
      ∀ d, parseDateFromContent content = some d →
        extractDate file content host = some d)
  ∧ (parseDateFromFileName file.basename = none →
      frontmatterDate host file = none →
      parseDateFromContent content = none →
      extractDate file content host = some ⟨file.ctime⟩) := by
  refine ⟨?_, ?_, ?_, ?_⟩ <;> intros <;> simp_all [extractDate]

theorem extractDate_priority_witness :
    extractDate fileA "" hostEmpty = some (civilDate 2026 1 12)
  ∧ extractDate fileB "" hostB = some ⟨77⟩
  ∧ extractDate fileB "x 2026/1/2" hostEmpty = some (civilDate 2026 1 2)
  ∧ extractDate fileB "no date" hostEmpty = some ⟨5⟩ :=
  ⟨(extractDate_priority fileA "" hostEmpty).1 _ (by decide),
   (extractDate_priority fileB "" hostB).2.1 (by decide) _ (by decide),
   (extractDate_priority fileB "x 2026/1/2" hostEmpty).2.2.1 (by decide) (by decide) _
     (by decide),
   (extractDate_priority fileB "no date" hostEmpty).2.2.2 (by decide) (by decide)
     (by decide)⟩

/-! ### Claim C5 -/

theorem parseDateFromFileName_eq (name : String) :
    parseDateFromFileName name
      = (fileNamePatternMatch name).map (fun t => jsMakeDateYMD t.1 (t.2.1 - 1) t.2.2) := by
  unfold parseDateFromFileName fileNamePatternMatch
  rcases scanYMD '-' '-' none name.toList with _ | ⟨y, m, d⟩
  · rcases scanYMD '年' '月' (some '日') name.toList with _ | ⟨y, m, d⟩
    · rcases scanYMD '.' '.' none name.toList with _ | ⟨y, m, d⟩ <;> simp
    · simp
  · simp

theorem jsMakeDateYMD_eq_civilDate {y m d : Int} (hy : 100 ≤ y)
    (hm1 : 1 ≤ m) (hm2 : m ≤ 12) :
    jsMakeDateYMD y (m - 1) d = civilDate y m d := by
  unfold jsMakeDateYMD civilDate
  have e1 : (m - 1).ediv 12 = 0 := Int.ediv_eq_zero_of_lt (by omega) (by omega)
  have e2 : (m - 1).emod 12 = m - 1 := Int.emod_eq_of_lt (by omega) (by omega)
  have hy' : ¬ (0 ≤ y ∧ y ≤ 99) := by omega
  rw [e1, e2]
  simp [hy']

/-- **C5 counterexample**: the filename `"0099-01-02"` contains an ISO date
whose matched digits denote the calendar-valid date 0099-01-02, yet the
code does not return that date: `new Date` maps years 0–99 to 1900+year, so
year 1999 is returned. Moreover out-of-range digits roll over instead of
being returned as matched: `"2026-13-01"` yields 2027-01-01. -/
theorem parseDateFromFileName_counterexample :
    fileNamePatternMatch "0099-01-02" = some (99, 1, 2)
  ∧ ValidYMD 99 1 2
  ∧ parseDateFromFileName "0099-01-02" ≠ some (civilDate 99 1 2)
  ∧ parseDateFromFileName "2026-13-01" = some (civilDate 2027 1 1) := by
  exact ⟨by decide, by decide, by decide, by decide⟩

/-- **C5 (amended)**: for every filename containing a date in one of the
supported formats (ISO, Chinese, dot-separated) whose matched digits form a
calendar-valid date with year ≥ 100, `parseDateFromFileName` returns
exactly that date (year, month and day as denoted by the digits); years
00-99 are mapped to 1900+year, and out-of-range month/day digits roll over
per JS `Date`. For a filename containing none of the patterns it returns
null. -/
theorem parseDateFromFileName_spec (name : String) :
    (∀ y m d, fileNamePatternMatch name = some (y, m, d) →
        100 ≤ y → ValidYMD y m d →
        parseDateFromFileName name = some (civilDate y m d))
  ∧ (fileNamePatternMatch name = none → parseDateFromFileName name = none) := by
  constructor
  · intro y m d hmatch hy hvalid
    rw [parseDateFromFileName_eq, hmatch]
    obtain ⟨hm1, hm2, -, -⟩ := hvalid
    simp [jsMakeDateYMD_eq_civilDate hy hm1 hm2]
  · intro hnone
    rw [parseDateFromFileName_eq, hnone]
    rfl

theorem parseDateFromFileName_spec_witness :
    parseDateFromFileName "2026-01-12" = some (civilDate 2026 1 12)
  ∧ parseDateFromFileName "hello" = none :=
  ⟨(parseDateFromFileName_spec "2026-01-12").1 2026 1 12 (by decide) (by decide)
      (by decide),
   (parseDateFromFileName_spec "hello").2 (by decide)⟩

/-! ### Claim C3 -/

/-- **C3**: the list returned by `extractImagesFromContent` is ordered by
source position within the note — positions are non-decreasing along the
returned list, regardless of which regex pass produced each image. -/
theorem extractImages_position_sorted (content : String) (file : VFile) (host : Host) :
    (extractImagesFromContent content file host).Pairwise
      (fun a b => a.position ≤ b.position) := by
  unfold extractImagesFromContent sortByPosition
  exact List.sorted_insertionSort posLe
    (wikiImages content file host ++ mdImages content file host)

/-! ### Claim C2 -/

def imgFileC2 : VFile :=
  { basename := "img", path := "dir/img.png", parentPath := some "dir",
    extension := "png", ctime := 0 }

def fileC2 : VFile :=
  { basename := "note", path := "dir/note.md", parentPath := some "dir",
    extension := "md", ctime := 0 }

def hostC2 : Host :=
  { hostEmpty with
    getAbstractFileByPath := fun p => if p = "dir/img.png" then some imgFileC2 else none }

/-- **C2 counterexample**: on a host whose link-resolution API resolves
nothing but whose vault holds `dir/img.png`, the Markdown pass still
produces an image — the plugin resolves the relative path itself and looks
it up by direct path — so path resolution is *not* delegated to the host's
link-resolution API for both passes, refuting the claim (formalised as
agreement with `extractImagesLinkResolved`, which follows the claim's
words). -/
theorem extractImages_not_link_resolved :
    extractImagesFromContent "![x](img.png)" fileC2 hostC2
      ≠ extractImagesLinkResolved "![x](img.png)" fileC2 hostC2
  ∧ extractImagesLinkResolved "![x](img.png)" fileC2 hostC2 = []
  ∧ (extractImagesFromContent "![x](img.png)" fileC2 hostC2).map (fun i => i.path)
      = ["dir/img.png"] := by
  refine ⟨by decide, by decide, by decide⟩

/-- **C2 (amended)**: image extraction performs exactly the two regex
passes — wiki-link and Markdown — appended and sorted by position. Every
image of the wiki pass is resolved via the host's link-resolution API
(`getFirstLinkpathDest`); every image of the Markdown pass is resolved by
the plugin itself (`resolveMdPath`: external links skipped, a leading slash
stripped, relative paths joined with the note's folder with `.` segments
dropped) followed by the host's *direct path* lookup
(`getAbstractFileByPath`) — only the wiki pass delegates resolution to the
link-resolution API. -/
theorem extractImages_two_passes (content : String) (file : VFile) (host : Host) :
    extractImagesFromContent content file host
      = sortByPosition (wikiImages content file host ++ mdImages content file host)
  ∧ (∀ img ∈ wikiImages content file host, ∃ ref vf,
        host.getFirstLinkpathDest ref file.path = some vf ∧ img.path = vf.path
          ∧ img.url = host.getResourcePath vf)
  ∧ (∀ img ∈ mdImages content file host, ∃ p vf,
        host.getAbstractFileByPath (resolveMdPath file p) = some vf
          ∧ img.path = vf.path ∧ img.url = host.getResourcePath vf) := by
  refine ⟨rfl, ?_, ?_⟩
  · intro img hmem
    unfold wikiImages at hmem
    rw [List.mem_filterMap] at hmem
    obtain ⟨pr, -, hpr⟩ := hmem
    dsimp only at hpr
    split at hpr
    · next vf heq => cases hpr; exact ⟨_, vf, heq, rfl, rfl⟩
    · next heq => exact absurd hpr (by simp)
  · intro img hmem
    unfold mdImages at hmem
    rw [List.mem_filterMap] at hmem
    obtain ⟨tr, -, hpr⟩ := hmem
    dsimp only at hpr
    split at hpr
    · exact absurd hpr (by simp)
    · split at hpr
      · next vf heq => cases hpr; exact ⟨strOf tr.2.2, vf, heq, rfl, rfl⟩
      · next heq => exact absurd hpr (by simp)

theorem extractImages_two_passes_witness :
    ∃ p vf, hostC2.getAbstractFileByPath (resolveMdPath fileC2 p) = some vf
      ∧ ({ name := "img", path := "dir/img.png", url := "", altText := some "x",
           position := 0 } : ImageInfo).path = vf.path
      ∧ ({ name := "img", path := "dir/img.png", url := "", altText := some "x",
           position := 0 } : ImageInfo).url = hostC2.getResourcePath vf :=
  (extractImages_two_passes "![x](img.png)" fileC2 hostC2).2.2 _ (by decide)

/-! ### Claim C6 -/

def stateBusy : ViewState :=
  { entries := [], isLoading := true, renderedEntries := ∅, currentPage := 0,
    isLoadingMore := false, targetFolderPath := none }

def stateIdle : ViewState := { stateBusy with isLoading := false }

/-- **C6**: `loadEntries` invoked while a previous load is in progress
returns immediately with the whole state — entries, current page, rendered
index set — unchanged; and every call that passes the guard ends with
`isLoading` false again (the `finally` clause). Host API calls are total in
the model and per-file read failures are caught per file, so the outer
`catch` has nothing left to intercept and the `finally` is the only exit of
a completed load. -/
theorem loadEntries_guard (host : Host) (s : ViewState) :
    (s.isLoading = true → loadEntriesRun host s = s)
  ∧ (s.isLoading = false → (loadEntriesRun host s).isLoading = false) := by
  unfold loadEntriesRun
  constructor <;> intro h <;> simp [h]

theorem loadEntries_guard_witness :
    loadEntriesRun hostEmpty stateBusy = stateBusy
  ∧ (loadEntriesRun hostEmpty stateIdle).isLoading = false :=
  ⟨(loadEntries_guard hostEmpty stateBusy).1 rfl,
   (loadEntries_guard hostEmpty stateIdle).2 rfl⟩

/-! ### Claim C7 -/

/-- The frontmatter fast path of `loadEntryMetadata`
(src/JournalView.ts:431-437): the date found when the cache has a truthy
frontmatter `date` that parses. When it is `none` the slow path runs. -/
def fastPathDate (host : Host) (f : VFile) : Option JDate :=
  match host.getFileCache f with
  | some cache =>
    match cache.frontmatter with
    | some fm =>
      match fm "date" with
      | some v => if fmTruthy v then parseDate host v else none
      | none => none
    | none => none
  | none => none

/-- The truthy cached content the slow path would use instead of the first
`vault.read` (src/JournalView.ts:445-449). -/
def cachedContentOf (host : Host) (f : VFile) : Option String :=
  match host.getFileCache f with
  | some cache =>
    match cache.cachedContent with
    | some cc => if cc = "" then none else some cc
    | none => none
  | none => none

/-- The images the slow path takes from the metadata cache; when this list
is empty the full (second) `vault.read` is performed
(src/JournalView.ts:463-472). -/
def metadataImagesOf (host : Host) (f : VFile) : List ImageInfo :=
  match host.getFileCache f with
  | some cache => extractImagesFromMetadata host cache f
  | none => []

/-- During a scan, `loadEntryMetadata` reads `f` exactly when the
frontmatter fast path does not apply and either no truthy cached content
exists (the first, truncated read) or the metadata cache yields no images
(the second, full read). If that read fails, the file's result is `none`. -/
theorem loadEntryMetadata_none_of_read_none (host : Host) (f : VFile)
    (hfast : fastPathDate host f = none)
    (hread : host.read f = none)
    (hcase : cachedContentOf host f = none ∨ metadataImagesOf host f = []) :
    loadEntryMetadata host f = none := by
  unfold fastPathDate at hfast
  unfold cachedContentOf metadataImagesOf at hcase
  unfold loadEntryMetadata
  rcases hgc : host.getFileCache f with _ | cache
  · unfold loadEntrySlow
    simp [hread]
  · rw [hgc] at hfast hcase
    dsimp only at hfast hcase ⊢
    have hslow : loadEntrySlow host f (some cache) = none := by
      unfold loadEntrySlow
      dsimp only
      rcases hcc : cache.cachedContent with _ | cc
      · simp [hcc, hread]
      · by_cases hemp : cc = ""
        · simp [hcc, hemp, hread]
        · rw [hcc] at hcase
          dsimp only at hcase
          rw [if_neg hemp] at hcase
          have himg : extractImagesFromMetadata host cache f = [] := by
            rcases hcase with hl | hr
            · exact absurd hl (by simp)
            · exact hr
          dsimp only
          rw [if_neg hemp]
          dsimp only
          rcases hx : extractDate f cc host with _ | date
          · rfl
          · simp [himg, hread]
    rcases hfm : cache.frontmatter with _ | fm
    · exact hslow
    · dsimp only
      rw [hfm] at hfast
      dsimp only at hfast
      rcases hdate : fm "date" with _ | v
      · exact hslow
      · dsimp only
        rw [hdate] at hfast
        dsimp only at hfast
        by_cases htr : fmTruthy v = true
        · rw [if_pos htr] at hfast
          rw [if_pos htr, hfast]
          exact hslow
        · rw [if_neg htr]
          exact hslow

/-- **C7**: any file whose read fails during a scan is caught: whenever the
scan actually reads `f` — the frontmatter fast path does not apply, and
either there is no truthy cached content (first read) or the metadata cache
yields no images (second, full read) — the failing read makes the per-file
result `none`, which the batch loop filters out, and the scan continues:
the entries from every other file are exactly those of the same scan run
without the failing file. (In the remaining configurations the scan never
reads `f`, so no read of `f` can fail.) -/
theorem scan_skips_failed_read (host : Host) (l1 l2 : List VFile) (f : VFile)
    (hfast : fastPathDate host f = none)
    (hread : host.read f = none)
    (hcase : cachedContentOf host f = none ∨ metadataImagesOf host f = []) :
    loadEntryMetadata host f = none
  ∧ processBatches host (l1 ++ f :: l2) = processBatches host (l1 ++ l2) := by
  have hnone := loadEntryMetadata_none_of_read_none host f hfast hread hcase
  refine ⟨hnone, ?_⟩
  rw [processBatches_eq_filterMap, processBatches_eq_filterMap]
  simp [hnone]

/-- A cache with no frontmatter but truthy cached content and no embeds:
the scan skips the first read and fails on the second (image) read. -/
def cacheC7 : FileCache :=
  { frontmatter := none, cachedContent := some "abc", embeds := none,
    headings := [] }

def hostC7 : Host := { hostEmpty with getFileCache := fun _ => some cacheC7 }

theorem scan_skips_failed_read_witness :
    (loadEntryMetadata hostC7 fileB = none
      ∧ processBatches hostC7 [fileB] = processBatches hostC7 [])
  ∧ (loadEntryMetadata hostEmpty fileA = none
      ∧ processBatches hostEmpty [fileA] = processBatches hostEmpty []) :=
  ⟨scan_skips_failed_read hostC7 [] [] fileB rfl rfl (Or.inr rfl),
   scan_skips_failed_read hostEmpty [] [] fileA rfl rfl (Or.inl rfl)⟩

/-! ### Claim C8 -/

/-- **C8**: every guard-passing `loadEntries` recomputes wholesale from the
vault's current file set: the new entry list is exactly the (sorted) scan
of `filesFor` — independent of the previous entries — the rendered index
set is emptied and the page counter reset to 0; and every resulting entry's
file belongs to the current file set (no entry survives a refresh unless
its file is rescanned). -/
theorem loadEntries_wholesale (host : Host) (s : ViewState)
    (h : s.isLoading = false) :
    (loadEntriesRun host s).entries
        = (processBatches host (filesFor host s.targetFolderPath)).insertionSort newestFirst
  ∧ (loadEntriesRun host s).renderedEntries = ∅
  ∧ (loadEntriesRun host s).currentPage = 0
  ∧ ∀ e ∈ (loadEntriesRun host s).entries,
      e.file ∈ filesFor host s.targetFolderPath := by
  unfold loadEntriesRun
  rw [if_neg (by simp [h])]
  refine ⟨rfl, rfl, rfl, ?_⟩
  intro e he
  rw [List.mem_insertionSort, processBatches_eq_filterMap] at he
  obtain ⟨f, hf, hload⟩ := List.mem_filterMap.mp he
  rw [loadEntryMetadata_file hload]
  exact hf

theorem loadEntries_wholesale_witness :
    (loadEntriesRun hostEmpty stateIdle).renderedEntries = ∅
  ∧ (loadEntriesRun hostEmpty stateIdle).currentPage = 0 :=
  ⟨(loadEntries_wholesale hostEmpty stateIdle rfl).2.1,
   (loadEntries_wholesale hostEmpty stateIdle rfl).2.2.1⟩

/-! ### Claim C4 -/

/-- The pagination invariant characterising the view's reachable pagination
states: the rendered indices are exactly the already-paginated prefix of
the entry list. It is established by `loadEntries` (`pageInv_loadEntries`)
and preserved by every `loadMoreEntries` call (`pageInv_loadMore`). -/
def PageInv (s : ViewState) : Prop :=
  s.renderedEntries = Finset.range (min (s.currentPage * itemsPerPage) s.entries.length)

theorem pageInv_loadEntries (host : Host) (s : ViewState) (h : s.isLoading = false) :
    PageInv (loadEntriesRun host s) := by
  unfold PageInv loadEntriesRun
  rw [if_neg (by simp [h])]
  simp

theorem pageInv_loadMore (s : ViewState) (h : PageInv s) :
    PageInv (loadMoreEntries s).1 := by
  unfold PageInv at h
  unfold loadMoreEntries
  by_cases hb : s.isLoadingMore = true
  · rw [if_pos hb]; exact h
  · rw [if_neg hb]
    dsimp only
    by_cases hlen : s.entries.length ≤ s.currentPage * itemsPerPage
    · rw [if_pos hlen]; exact h
    · rw [if_neg hlen]
      unfold renderEntriesBatch
      unfold PageInv
      dsimp only
      rw [h]
      ext i
      simp [itemsPerPage] at *
      omega

/-- **C4**: from any reachable pagination state (`PageInv`) with no
load-more in progress: when `page*itemsPerPage < n`, `loadMoreEntries`
renders exactly the entries with indices `page*itemsPerPage` up to
`min(page*itemsPerPage + itemsPerPage, n) - 1` and increments the current
page by one; when `page*itemsPerPage ≥ n` it renders no entries and leaves
the current page unchanged. -/
theorem loadMoreEntries_spec (s : ViewState) (hInv : PageInv s)
    (hbusy : s.isLoadingMore = false) :
    (s.currentPage * itemsPerPage < s.entries.length →
       (loadMoreEntries s).2
           = Finset.Ico (s.currentPage * itemsPerPage)
               (min (s.currentPage * itemsPerPage + itemsPerPage) s.entries.length)
         ∧ (loadMoreEntries s).1.currentPage = s.currentPage + 1)
  ∧ (s.entries.length ≤ s.currentPage * itemsPerPage →
       (loadMoreEntries s).2 = ∅
         ∧ (loadMoreEntries s).1.currentPage = s.currentPage) := by
  unfold PageInv at hInv
  unfold loadMoreEntries
  rw [if_neg (by simp [hbusy])]
  dsimp only
  constructor
  · intro hlt
    rw [if_neg (by omega)]
    unfold renderEntriesBatch
    dsimp only
    refine ⟨?_, rfl⟩
    rw [hInv]
    ext i
    simp [itemsPerPage] at *
    omega
  · intro hge
    rw [if_pos hge]
    exact ⟨rfl, rfl⟩

def entryA : JournalEntry :=
  { file := fileA, date := ⟨0⟩, images := [], content := "", preview := "",
    wordCount := 0, title := "" }

def stateOne : ViewState :=
  { entries := [entryA], isLoading := false, renderedEntries := ∅,
    currentPage := 0, isLoadingMore := false, targetFolderPath := none }

theorem loadMoreEntries_spec_witness :
    (loadMoreEntries stateOne).2
        = Finset.Ico (stateOne.currentPage * itemsPerPage)
            (min (stateOne.currentPage * itemsPerPage + itemsPerPage)
              stateOne.entries.length)
  ∧ (loadMoreEntries stateOne).1.currentPage = stateOne.currentPage + 1 :=
  (loadMoreEntries_spec stateOne (by simp [PageInv, stateOne]) rfl).1 (by decide)

/-! ### Claim C10 -/

/-- Induction invariant for repeated load-more calls after a scan. -/
def IterInv (n k : Nat) (s : ViewState) : Prop :=
  s.entries.length = n ∧ s.isLoadingMore = false
  ∧ s.renderedEntries = Finset.range (min (s.currentPage * itemsPerPage) n)
  ∧ min (s.currentPage * itemsPerPage) n = min (k * itemsPerPage) n

theorem iterInv_step {n k : Nat} {s : ViewState} (h : IterInv n k s) :
    IterInv n (k + 1) (loadMoreEntries s).1 := by
  obtain ⟨hn, hb, hr, hmin⟩ := h
  unfold loadMoreEntries
  rw [if_neg (by simp [hb])]
  dsimp only
  by_cases hlen : s.entries.length ≤ s.currentPage * itemsPerPage
  · rw [if_pos hlen]
    refine ⟨hn, hb, hr, ?_⟩
    subst hn
    simp [itemsPerPage] at *
    omega
  · rw [if_neg hlen]
    unfold renderEntriesBatch
    dsimp only
    refine ⟨hn, rfl, ?_, ?_⟩
    · rw [hr]
      subst hn
      ext i
      simp [itemsPerPage] at *
      omega
    · subst hn
      simp [itemsPerPage] at *
      omega

theorem iterInv_iter {n : Nat} : ∀ (k j : Nat) (s : ViewState),
    IterInv n j s → IterInv n (j + k) (iterLoadMore k s)
  | 0, _, _, h => h
  | k + 1, j, s, h => by
    have h2 := iterInv_iter k (j + 1) (loadMoreEntries s).1 (iterInv_step h)
    have e : j + (k + 1) = j + 1 + k := by omega
    rw [e]
    exact h2

/-- **C10**: after every completed `loadEntries` the entry list is sorted
by date in non-increasing order (newest first), and pagination draws its
batches from this list in order: after `k` load-more calls exactly the
first `min(k*itemsPerPage, n)` entries are the rendered ones. -/
theorem loadEntries_sorted_pagination (host : Host) (s : ViewState)
    (h1 : s.isLoading = false) (h2 : s.isLoadingMore = false) :
    ((loadEntriesRun host s).entries).Pairwise (fun a b => b.date.ms ≤ a.date.ms)
  ∧ ∀ k, (iterLoadMore k (loadEntriesRun host s)).renderedEntries
      = Finset.range (min (k * itemsPerPage) (loadEntriesRun host s).entries.length) := by
  constructor
  · have hs := List.sorted_insertionSort newestFirst
      (processBatches host (filesFor host s.targetFolderPath))
    unfold loadEntriesRun
    rw [if_neg (by simp [h1])]
    exact hs
  · intro k
    have h0 : IterInv (loadEntriesRun host s).entries.length 0 (loadEntriesRun host s) := by
      unfold IterInv loadEntriesRun
      rw [if_neg (by simp [h1])]
      exact ⟨rfl, h2, by simp, rfl⟩
    have hk := iterInv_iter k 0 _ h0
    rw [Nat.zero_add] at hk
    obtain ⟨-, -, hr, hmin⟩ := hk
    rw [hr, hmin]

theorem loadEntries_sorted_pagination_witness :
    (iterLoadMore 1 (loadEntriesRun hostEmpty stateIdle)).renderedEntries
      = Finset.range (min (1 * itemsPerPage)
          (loadEntriesRun hostEmpty stateIdle).entries.length) :=
  (loadEntries_sorted_pagination hostEmpty stateIdle rfl rfl).2 1

end ObJournal
